import Mathlib

/-!
Shallow embedding of the Mandelbrod repository (src/src/main.rs).

Rust `f64`/`f32` values are modelled as `ℚ`: on every concrete input used
below the Rust arithmetic is exact (small integers and exact binary
fractions), so the rational model agrees with the double-precision code.
Rust `i32` values are modelled as `ℤ`.
-/

namespace Mandelbrod

/-- `struct Complex { real: f64, imag: f64 }`. -/
structure Complex where
  real : ℚ
  imag : ℚ
deriving DecidableEq

/-- `Complex::square`: closed-form complex square; the code computes the
imaginary part as `(real + real) * imag`. -/
def Complex.square (z : Complex) : Complex :=
  ⟨z.real * z.real - z.imag * z.imag, (z.real + z.real) * z.imag⟩

/-- `Complex::mag`: squared magnitude (no square root). -/
def Complex.mag (z : Complex) : ℚ :=
  z.imag * z.imag + z.real * z.real

/-- `impl Add for Complex`: componentwise addition. -/
def Complex.add (a b : Complex) : Complex :=
  ⟨a.real + b.real, a.imag + b.imag⟩

instance : Add Complex := ⟨Complex.add⟩

theorem Complex.add_def (a b : Complex) :
    a + b = ⟨a.real + b.real, a.imag + b.imag⟩ := rfl

/-- `struct Pixel { x: i32, y: i32, escapes: i32 }`. -/
structure Pixel where
  x : ℤ
  y : ℤ
  escapes : ℤ
deriving DecidableEq

/-- `struct ScreenInfo`. -/
structure ScreenInfo where
  x_start : ℚ
  x_stop : ℚ
  y_start : ℚ
  y_stop : ℚ
  pixels_per_cm : ℚ
  screen_width : ℤ
  screen_height : ℤ
deriving DecidableEq

/-- Mouse position (`raylib::Vector2`, two `f32` components). -/
structure Vector2 where
  x : ℚ
  y : ℚ
deriving DecidableEq

/-- The linear pixel-to-plane map on the x axis, as written in the code
(both in `ScreenInfo::zoom` for `mouse_world_x` and in `mandelbrod` for
`c.real`): `x_start + px / screen_width * (x_stop - x_start)`. -/
def pixelToPlaneX (s : ScreenInfo) (px : ℚ) : ℚ :=
  s.x_start + px / (s.screen_width : ℚ) * (s.x_stop - s.x_start)

/-- The linear pixel-to-plane map on the y axis, as written in the code. -/
def pixelToPlaneY (s : ScreenInfo) (py : ℚ) : ℚ :=
  s.y_start + py / (s.screen_height : ℚ) * (s.y_stop - s.y_start)

/-- Modelled from the spec: "the updated viewport's linear plane-to-pixel
mapping" (the code has no explicit plane-to-pixel function; this is the
inverse of the pixel-to-plane map the code uses), x axis. -/
def planeToPixelX (s : ScreenInfo) (re : ℚ) : ℚ :=
  (re - s.x_start) / (s.x_stop - s.x_start) * (s.screen_width : ℚ)

/-- Modelled from the spec: plane-to-pixel mapping, y axis. -/
def planeToPixelY (s : ScreenInfo) (im : ℚ) : ℚ :=
  (im - s.y_start) / (s.y_stop - s.y_start) * (s.screen_height : ℚ)

/-- `ScreenInfo::zoom`: recompute the four bounds about the focal point;
`pixels_per_cm`, `screen_width`, `screen_height` are untouched. -/
def ScreenInfo.zoom (s : ScreenInfo) (how_many_times : ℚ) (mouse_pos : Vector2) : ScreenInfo :=
  let view_width := s.x_stop - s.x_start
  let view_height := s.y_stop - s.y_start
  let mouse_world_x := s.x_start + mouse_pos.x / (s.screen_width : ℚ) * view_width
  let mouse_world_y := s.y_start + mouse_pos.y / (s.screen_height : ℚ) * view_height
  let new_width := view_width / how_many_times
  let new_height := view_height / how_many_times
  { s with
    x_start := mouse_world_x - new_width / 2
    x_stop := mouse_world_x + new_width / 2
    y_start := mouse_world_y - new_height / 2
    y_stop := mouse_world_y + new_height / 2 }

/-- Truncation toward zero of a rational (the rounding mode of Rust's
`as i32` cast on a finite `f64`). -/
def ratTrunc (q : ℚ) : ℤ :=
  if 0 ≤ q then ⌊q⌋ else ⌈q⌉

/-- Rust's saturating `f64 as i32` cast (truncate toward zero, clamp to
the `i32` range). -/
def f64ToI32 (q : ℚ) : ℤ :=
  if q < -(2 ^ 31) then -(2 ^ 31)
  else if (2 ^ 31 : ℚ) - 1 < q then 2 ^ 31 - 1
  else ratTrunc q

/-- `impl From<(f64, f64, f64, f64, f64)> for ScreenInfo`: the screen
resolution is the `as i32` cast of `pixels_per_cm * extent`. -/
def ScreenInfo.fromTuple (values : ℚ × ℚ × ℚ × ℚ × ℚ) : ScreenInfo :=
  let (x_start, x_stop, y_start, y_stop, pixels_per_cm) := values
  { x_start := x_start
    x_stop := x_stop
    y_start := y_start
    y_stop := y_stop
    pixels_per_cm := pixels_per_cm
    screen_width := f64ToI32 (pixels_per_cm * (x_stop - x_start))
    screen_height := f64ToI32 (pixels_per_cm * (y_stop - y_start)) }

/-- `const MAX_THREADS: i32 = 64`. -/
def MAX_THREADS : ℕ := 64

/-- `const ACCURACY: i32 = 2`. -/
def ACCURACY : ℤ := 2

/-- `const ITERS: i32 = 10000`. -/
def ITERS : ℕ := 10000

/-- The loop body of `belongs_to_set`: `z` starts at the given value,
`i` is the written-back escape count, `fuel` the remaining iterations of
`for i in 0..ITERS`.  Each iteration first tests `z.mag() > 16.0` and
returns `i`, otherwise performs `z.square(); z = z + c`.  Exhausting the
loop stores `0`. -/
def belongsToSetAux (c : Complex) : Complex → ℤ → ℕ → ℤ
  | _, _, 0 => 0
  | z, i, fuel + 1 =>
    if z.mag > 16 then i
    else belongsToSetAux c (z.square + c) (i + 1) fuel

/-- `belongs_to_set(c, p)`: returns the value written to `p.escapes`
(the iteration count at first escape, or `0`).  `iters` is the `ITERS`
constant, kept as a parameter. -/
def belongs_to_set (iters : ℕ) (c : Complex) : ℤ :=
  belongsToSetAux c ⟨0, 0⟩ 0 iters

/-- The orbit `z_0 = (0,0)`, `z_(n+1) = z_n² + c` traced by
`belongs_to_set`. -/
def orbit (c : Complex) : ℕ → Complex
  | 0 => ⟨0, 0⟩
  | n + 1 => (orbit c n).square + c

/-- `rows_per_thread = (screen_height as f32 / MAX_THREADS as f32).ceil() as i32`
(exact for every height below `2^24`, hence for every screen in scope). -/
def rowsPerThread (screen_height : ℤ) (max_threads : ℕ) : ℤ :=
  ⌈(screen_height : ℚ) / (max_threads : ℚ)⌉

/-- Number of elements of Rust's `(start..stop).step_by(step)` for a
positive `step`. -/
def stepCount (start stop step : ℤ) : ℕ :=
  (⌈((stop - start : ℤ) : ℚ) / (step : ℚ)⌉).toNat

/-- The list of values visited by `(start..stop).step_by(step)`:
`start, start + step, ...` while below `stop`. -/
def stepRange (start stop step : ℤ) : List ℤ :=
  (List.range (stepCount start stop step)).map (fun (k : ℕ) => start + (k : ℤ) * step)

/-- The `temp_data` produced by worker `i` of `mandelbrod`: rows
`start_y = i * rows_per_thread` up to `end_y = (i+1) * rows_per_thread`
stepped by `ACCURACY`, columns `0..screen_width` stepped by `ACCURACY`,
each pixel carrying its `belongs_to_set` escape count. -/
def bandPixels (screen : ScreenInfo) (accuracy : ℤ) (iters : ℕ) (rows_per_thread : ℤ)
    (i : ℕ) : List Pixel :=
  let start_y := (i : ℤ) * rows_per_thread
  let end_y := ((i : ℤ) + 1) * rows_per_thread
  (stepRange start_y end_y accuracy).flatMap (fun (y : ℤ) =>
    (stepRange 0 screen.screen_width accuracy).map (fun (x : ℤ) =>
      let c : Complex := ⟨pixelToPlaneX screen (x : ℚ), pixelToPlaneY screen (y : ℚ)⟩
      { x := x, y := y, escapes := belongs_to_set iters c }))

/-- `mandelbrod(screen)` with the three tunables as parameters: workers
`i in 0..=max_threads` (the code's inclusive range spawns
`max_threads + 1` workers), results concatenated into one collection. -/
def mandelbrodPixels (screen : ScreenInfo) (max_threads : ℕ) (accuracy : ℤ)
    (iters : ℕ) : List Pixel :=
  (List.range (max_threads + 1)).flatMap
    (bandPixels screen accuracy iters (rowsPerThread screen.screen_height max_threads))

/-- `mandelbrod(screen)` at the code's constants. -/
def mandelbrod (screen : ScreenInfo) : List Pixel :=
  mandelbrodPixels screen MAX_THREADS ACCURACY ITERS

/-- A concrete viewport used for witnesses/counterexamples: every sampled
point is far from the origin, so every orbit escapes at iteration 1. -/
def testScreen : ScreenInfo :=
  ScreenInfo.fromTuple (100, 104, 100, 104, 1)

/-! ### Evaluation helpers -/

theorem f64ToI32_eval {q : ℚ} {n : ℤ} (h1 : -(2 ^ 31) ≤ q) (h2 : q ≤ (2 ^ 31 : ℚ) - 1)
    (h3 : 0 ≤ q) (h4 : ⌊q⌋ = n) : f64ToI32 q = n := by
  rw [f64ToI32, if_neg (not_lt.mpr h1), if_neg (not_lt.mpr h2), ratTrunc, if_pos h3, h4]

theorem stepCount_eval {a b s : ℤ} {n : ℕ}
    (h : ⌈((b - a : ℤ) : ℚ) / (s : ℚ)⌉ = (n : ℤ)) : stepCount a b s = n := by
  rw [stepCount, h, Int.toNat_natCast]

theorem testScreen_width : testScreen.screen_width = 4 := by
  apply f64ToI32_eval (by norm_num) (by norm_num) (by norm_num)
  rw [show (1 : ℚ) * (104 - 100) = ((4 : ℤ) : ℚ) by norm_num, Int.floor_intCast]

theorem testScreen_height : testScreen.screen_height = 4 := by
  apply f64ToI32_eval (by norm_num) (by norm_num) (by norm_num)
  rw [show (1 : ℚ) * (104 - 100) = ((4 : ℤ) : ℚ) by norm_num, Int.floor_intCast]

theorem testScreen_bounds : testScreen.x_start = 100 ∧ testScreen.x_stop = 104 ∧
    testScreen.y_start = 100 ∧ testScreen.y_stop = 104 ∧ testScreen.pixels_per_cm = 1 :=
  ⟨rfl, rfl, rfl, rfl, rfl⟩

/-! ### Zoom claims -/

/-- C7: after `zoom(v, f, p)` with `f > 0`, the new axis extents equal the
old extents divided by `f`. -/
theorem zoom_extents_divided (v : ScreenInfo) (f : ℚ) (mp : Vector2) (hf : 0 < f) :
    (v.zoom f mp).x_stop - (v.zoom f mp).x_start = (v.x_stop - v.x_start) / f ∧
    (v.zoom f mp).y_stop - (v.zoom f mp).y_start = (v.y_stop - v.y_start) / f := by
  constructor <;> simp only [ScreenInfo.zoom] <;> ring

/-- C7 witness. -/
theorem zoom_extents_divided_witness :
    (0 : ℚ) < 2 ∧
    ((testScreen.zoom 2 ⟨1, 1⟩).x_stop - (testScreen.zoom 2 ⟨1, 1⟩).x_start =
        (testScreen.x_stop - testScreen.x_start) / 2 ∧
      (testScreen.zoom 2 ⟨1, 1⟩).y_stop - (testScreen.zoom 2 ⟨1, 1⟩).y_start =
        (testScreen.y_stop - testScreen.y_start) / 2) :=
  ⟨by norm_num, zoom_extents_divided testScreen 2 ⟨1, 1⟩ (by norm_num)⟩

/-- C8: `zoom` overwrites only the four bounds fields; `pixels_per_cm`,
`screen_width` and `screen_height` are unchanged, for every factor and
focal point. -/
theorem zoom_preserves_resolution_fields (v : ScreenInfo) (f : ℚ) (mp : Vector2) :
    (v.zoom f mp).pixels_per_cm = v.pixels_per_cm ∧
    (v.zoom f mp).screen_width = v.screen_width ∧
    (v.zoom f mp).screen_height = v.screen_height :=
  ⟨rfl, rfl, rfl⟩

/-- C10: the plane coordinate computed for the focal screen point under the
pre-zoom mapping is exactly the midpoint of the new bounds on both axes. -/
theorem zoom_recenters_on_focal_point (v : ScreenInfo) (f : ℚ) (mp : Vector2) (hf : 0 < f) :
    pixelToPlaneX v mp.x = ((v.zoom f mp).x_start + (v.zoom f mp).x_stop) / 2 ∧
    pixelToPlaneY v mp.y = ((v.zoom f mp).y_start + (v.zoom f mp).y_stop) / 2 := by
  constructor <;> simp only [ScreenInfo.zoom, pixelToPlaneX, pixelToPlaneY] <;> ring

/-- C10 witness. -/
theorem zoom_recenters_on_focal_point_witness :
    (0 : ℚ) < 2 ∧
    (pixelToPlaneX testScreen 1 =
        ((testScreen.zoom 2 ⟨1, 1⟩).x_start + (testScreen.zoom 2 ⟨1, 1⟩).x_stop) / 2 ∧
      pixelToPlaneY testScreen 1 =
        ((testScreen.zoom 2 ⟨1, 1⟩).y_start + (testScreen.zoom 2 ⟨1, 1⟩).y_stop) / 2) :=
  ⟨by norm_num, zoom_recenters_on_focal_point testScreen 2 ⟨1, 1⟩ (by norm_num)⟩

/-- C2 (amended): after `zoom(v, f, p)` with `f > 1` and non-degenerate
extents, the plane point originally under screen pixel `p` maps, under the
new viewport's linear plane-to-pixel mapping, to the center pixel
`(screen_width / 2, screen_height / 2)` of the screen — not to `p` itself
(the zoom recenters the view on the focal point). -/
theorem zoom_focal_maps_to_center (v : ScreenInfo) (f : ℚ) (mp : Vector2) (hf : 1 < f)
    (hx : v.x_stop - v.x_start ≠ 0) (hy : v.y_stop - v.y_start ≠ 0) :
    planeToPixelX (v.zoom f mp) (pixelToPlaneX v mp.x) = (v.screen_width : ℚ) / 2 ∧
    planeToPixelY (v.zoom f mp) (pixelToPlaneY v mp.y) = (v.screen_height : ℚ) / 2 := by
  have hf0 : f ≠ 0 := ne_of_gt (lt_trans zero_lt_one hf)
  constructor
  · simp only [ScreenInfo.zoom, planeToPixelX, pixelToPlaneX]
    rw [show v.x_start + mp.x / (v.screen_width : ℚ) * (v.x_stop - v.x_start) +
          (v.x_stop - v.x_start) / f / 2 -
          (v.x_start + mp.x / (v.screen_width : ℚ) * (v.x_stop - v.x_start) -
            (v.x_stop - v.x_start) / f / 2) = (v.x_stop - v.x_start) / f by ring]
    field_simp
    ring
  · simp only [ScreenInfo.zoom, planeToPixelY, pixelToPlaneY]
    rw [show v.y_start + mp.y / (v.screen_height : ℚ) * (v.y_stop - v.y_start) +
          (v.y_stop - v.y_start) / f / 2 -
          (v.y_start + mp.y / (v.screen_height : ℚ) * (v.y_stop - v.y_start) -
            (v.y_stop - v.y_start) / f / 2) = (v.y_stop - v.y_start) / f by ring]
    field_simp
    ring

/-- C2 witness (for the amended statement). -/
theorem zoom_focal_maps_to_center_witness :
    (1 : ℚ) < 2 ∧ testScreen.x_stop - testScreen.x_start ≠ 0 ∧
    testScreen.y_stop - testScreen.y_start ≠ 0 ∧
    (planeToPixelX (testScreen.zoom 2 ⟨0, 0⟩) (pixelToPlaneX testScreen 0) =
        (testScreen.screen_width : ℚ) / 2 ∧
      planeToPixelY (testScreen.zoom 2 ⟨0, 0⟩) (pixelToPlaneY testScreen 0) =
        (testScreen.screen_height : ℚ) / 2) :=
  ⟨by norm_num, by norm_num [testScreen_bounds.1, testScreen_bounds.2.1],
    by norm_num [testScreen_bounds.2.2.1, testScreen_bounds.2.2.2.1],
    zoom_focal_maps_to_center testScreen 2 ⟨0, 0⟩ (by norm_num)
      (by norm_num [testScreen_bounds.1, testScreen_bounds.2.1])
      (by norm_num [testScreen_bounds.2.2.1, testScreen_bounds.2.2.2.1])⟩

/-- C2 (counterexample): for the viewport with bounds `[0,4] × [0,4]` and
scale 1 (a 4×4 screen), zooming by factor 2 at screen point `(0,0)` sends
the plane point that was under pixel `(0,0)` to screen coordinate `2`
(the screen center) on both axes, not back to pixel `0`: the focal pixel
is not fixed by the zoom. -/
theorem zoom_focal_not_fixed_counterexample :
    planeToPixelX ((ScreenInfo.fromTuple (0, 4, 0, 4, 1)).zoom 2 ⟨0, 0⟩)
        (pixelToPlaneX (ScreenInfo.fromTuple (0, 4, 0, 4, 1)) 0) = 2 ∧
    (2 : ℚ) ≠ 0 := by
  have hw : (ScreenInfo.fromTuple (0, 4, 0, 4, 1)).screen_width = 4 := by
    apply f64ToI32_eval (by norm_num) (by norm_num) (by norm_num)
    rw [show (1 : ℚ) * (4 - 0) = ((4 : ℤ) : ℚ) by norm_num, Int.floor_intCast]
  constructor
  · simp only [ScreenInfo.zoom, planeToPixelX, pixelToPlaneX, hw]
    norm_num [ScreenInfo.fromTuple]
  · norm_num

/-! ### Escape-time recurrence lemmas -/

theorem orbit_succ (c : Complex) (n : ℕ) : orbit c (n + 1) = (orbit c n).square + c := rfl

theorem btsAux_eq_zero_of_bounded (c : Complex) (fuel : ℕ) :
    ∀ (k : ℕ) (a : ℤ), (∀ j, j < fuel → (orbit c (k + j)).mag ≤ 16) →
      belongsToSetAux c (orbit c k) a fuel = 0 := by
  induction fuel with
  | zero => intro k a _; rfl
  | succ n ih =>
    intro k a h
    rw [belongsToSetAux, if_neg (not_lt.mpr (by simpa using h 0 n.succ_pos))]
    rw [show (orbit c k).square + c = orbit c (k + 1) from rfl]
    exact ih (k + 1) (a + 1) fun j hj => by
      have := h (j + 1) (Nat.succ_lt_succ hj)
      rwa [show k + (j + 1) = k + 1 + j by omega] at this

theorem btsAux_eq_of_first_exceed (c : Complex) (m : ℕ) :
    ∀ (fuel k : ℕ) (a : ℤ), m < fuel → 16 < (orbit c (k + m)).mag →
      (∀ j, j < m → (orbit c (k + j)).mag ≤ 16) →
      belongsToSetAux c (orbit c k) a fuel = a + (m : ℤ) := by
  induction m with
  | zero =>
    intro fuel k a hm hmag _
    obtain ⟨n, rfl⟩ : ∃ n, fuel = n + 1 := ⟨fuel - 1, by omega⟩
    rw [belongsToSetAux, if_pos (by simpa using hmag)]
    simp
  | succ m ih =>
    intro fuel k a hm hmag hbefore
    obtain ⟨n, rfl⟩ : ∃ n, fuel = n + 1 := ⟨fuel - 1, by omega⟩
    rw [belongsToSetAux, if_neg (not_lt.mpr (by simpa using hbefore 0 m.succ_pos))]
    rw [show (orbit c k).square + c = orbit c (k + 1) from rfl]
    rw [ih n (k + 1) (a + 1) (by omega)
      (by rwa [show k + 1 + m = k + (m + 1) by omega])
      (fun j hj => by
        have := hbefore (j + 1) (Nat.succ_lt_succ hj)
        rwa [show k + (j + 1) = k + 1 + j by omega] at this)]
    push_cast
    ring

theorem belongs_to_set_eq_zero_of_bounded (iters : ℕ) (c : Complex)
    (h : ∀ j, j < iters → (orbit c j).mag ≤ 16) : belongs_to_set iters c = 0 := by
  have := btsAux_eq_zero_of_bounded c iters 0 0 (by simpa using h)
  simpa [belongs_to_set] using this

theorem belongs_to_set_eq_of_first_exceed (iters : ℕ) (c : Complex) (m : ℕ)
    (hm : m < iters) (hmag : 16 < (orbit c m).mag)
    (hbefore : ∀ j, j < m → (orbit c j).mag ≤ 16) :
    belongs_to_set iters c = (m : ℤ) := by
  have := btsAux_eq_of_first_exceed c m iters 0 0 hm (by simpa using hmag)
    (by simpa using hbefore)
  simpa [belongs_to_set] using this

theorem btsAux_bounds (c : Complex) (fuel : ℕ) :
    ∀ (z : Complex) (a : ℤ), 0 ≤ a →
      0 ≤ belongsToSetAux c z a fuel ∧ belongsToSetAux c z a fuel ≤ a + (fuel : ℤ) := by
  induction fuel with
  | zero => intro z a ha; exact ⟨le_refl 0, by simpa using ha⟩
  | succ n ih =>
    intro z a ha
    rw [belongsToSetAux]
    by_cases hmag : z.mag > 16
    · rw [if_pos hmag]; constructor
      · exact ha
      · have : (0 : ℤ) ≤ (n : ℤ) + 1 := by positivity
        omega
    · rw [if_neg hmag]
      have := ih (z.square + c) (a + 1) (by omega)
      constructor
      · exact this.1
      · have h2 := this.2
        push_cast
        push_cast at h2
        omega

theorem belongs_to_set_bounds (iters : ℕ) (c : Complex) :
    0 ≤ belongs_to_set iters c ∧ belongs_to_set iters c ≤ (iters : ℤ) := by
  have := btsAux_bounds c iters ⟨0, 0⟩ 0 le_rfl
  simpa [belongs_to_set] using this

/-- C1: `belongs_to_set` starts the orbit at `z = (0,0)`, checks the squared
magnitude against `16` before each update, returns the index of the first
exceedance (the update being the closed-form square, whose imaginary part
`(real + real) * imag` equals `2 * real * imag`, plus `c`), and returns `0`
when no exceedance happens within the cap. -/
theorem escape_iteration_semantics (cap : ℕ) (c : Complex) :
    (orbit c 0 = ⟨0, 0⟩ ∧
      ∀ z : Complex, z.square = ⟨z.real * z.real - z.imag * z.imag, 2 * z.real * z.imag⟩) ∧
    ((∀ i, i < cap → (orbit c i).mag ≤ 16) → belongs_to_set cap c = 0) ∧
    (∀ i, i < cap → 16 < (orbit c i).mag → (∀ j, j < i → (orbit c j).mag ≤ 16) →
      belongs_to_set cap c = (i : ℤ)) := by
  refine ⟨⟨rfl, fun z => ?_⟩, fun h => belongs_to_set_eq_zero_of_bounded cap c h,
    fun i hi hmag hbefore => belongs_to_set_eq_of_first_exceed cap c i hi hmag hbefore⟩
  rw [Complex.square, Complex.mk.injEq]
  exact ⟨rfl, by ring⟩

/-- C1 witness: for `c = (2, 2)` and cap `3`, the first exceedance is at
iteration `2`, and `belongs_to_set` returns `2`. -/
theorem escape_iteration_semantics_witness : belongs_to_set 3 ⟨2, 2⟩ = 2 := by
  have horb0 : orbit ⟨2, 2⟩ 0 = ⟨0, 0⟩ := rfl
  have horb1 : orbit ⟨2, 2⟩ 1 = ⟨2, 2⟩ := by
    rw [orbit_succ, horb0, Complex.square, Complex.add_def]
    norm_num
  have horb2 : orbit ⟨2, 2⟩ 2 = ⟨2, 10⟩ := by
    rw [orbit_succ, horb1, Complex.square, Complex.add_def]
    norm_num
  have := (escape_iteration_semantics 3 ⟨2, 2⟩).2.2 2 (by norm_num)
    (by rw [horb2, Complex.mag]; norm_num)
    (fun j hj => by
      interval_cases j
      · rw [horb0, Complex.mag]; norm_num
      · rw [horb1, Complex.mag]; norm_num)
  simpa using this

theorem orbit_zero_point (n : ℕ) : orbit ⟨0, 0⟩ n = ⟨0, 0⟩ := by
  induction n with
  | zero => rfl
  | succ k ih =>
    rw [orbit_succ, ih, Complex.square, Complex.add_def]
    norm_num

theorem orbit_minus_one (n : ℕ) :
    orbit ⟨-1, 0⟩ n = ⟨0, 0⟩ ∨ orbit ⟨-1, 0⟩ n = ⟨-1, 0⟩ := by
  induction n with
  | zero => exact Or.inl rfl
  | succ k ih =>
    rcases ih with h | h
    · right; rw [orbit_succ, h, Complex.square, Complex.add_def]; norm_num
    · left; rw [orbit_succ, h, Complex.square, Complex.add_def]; norm_num

/-- C9: with the threshold `16` and any cap of at least `100`:
`c = (0,0)` and `c = (-1,0)` report `escapes = 0`, and `c = (2,2)` escapes
at iteration `2` (so `escapes ≥ 1` and small). -/
theorem known_points_escape_behavior (cap : ℕ) (hcap : 100 ≤ cap) :
    belongs_to_set cap ⟨0, 0⟩ = 0 ∧ belongs_to_set cap ⟨-1, 0⟩ = 0 ∧
    1 ≤ belongs_to_set cap ⟨2, 2⟩ ∧ belongs_to_set cap ⟨2, 2⟩ ≤ 10 := by
  refine ⟨?_, ?_, ?_⟩
  · apply belongs_to_set_eq_zero_of_bounded
    intro j _
    rw [orbit_zero_point, Complex.mag]
    norm_num
  · apply belongs_to_set_eq_zero_of_bounded
    intro j _
    rcases orbit_minus_one j with h | h <;> rw [h, Complex.mag] <;> norm_num
  · have horb1 : orbit ⟨2, 2⟩ 1 = ⟨2, 2⟩ := by
      rw [orbit_succ, show orbit ⟨2, 2⟩ 0 = ⟨0, 0⟩ from rfl, Complex.square, Complex.add_def]
      norm_num
    have horb2 : orbit ⟨2, 2⟩ 2 = ⟨2, 10⟩ := by
      rw [orbit_succ, horb1, Complex.square, Complex.add_def]
      norm_num
    have h22 : belongs_to_set cap ⟨2, 2⟩ = 2 := by
      apply belongs_to_set_eq_of_first_exceed cap ⟨2, 2⟩ 2 (by omega)
      · rw [horb2, Complex.mag]; norm_num
      · intro j hj
        interval_cases j
        · rw [show orbit ⟨2, 2⟩ 0 = ⟨0, 0⟩ from rfl, Complex.mag]; norm_num
        · rw [horb1, Complex.mag]; norm_num
    rw [h22]
    norm_num

/-- C9 witness at cap `100`. -/
theorem known_points_escape_behavior_witness :
    100 ≤ 100 ∧
    (belongs_to_set 100 ⟨0, 0⟩ = 0 ∧ belongs_to_set 100 ⟨-1, 0⟩ = 0 ∧
      1 ≤ belongs_to_set 100 ⟨2, 2⟩ ∧ belongs_to_set 100 ⟨2, 2⟩ ≤ 10) :=
  ⟨le_refl 100, known_points_escape_behavior 100 (le_refl 100)⟩

/-! ### Partitioning and sampling lemmas -/

theorem stepRange_length (a b s : ℤ) : (stepRange a b s).length = stepCount a b s := by
  rw [stepRange, List.length_map, List.length_range]

theorem mem_stepRange {y a b s : ℤ} :
    y ∈ stepRange a b s ↔ ∃ k : ℕ, k < stepCount a b s ∧ y = a + (k : ℤ) * s := by
  rw [stepRange]
  constructor
  · intro hy
    obtain ⟨k, hk, hek⟩ := List.mem_map.mp hy
    exact ⟨k, List.mem_range.mp hk, hek.symm⟩
  · rintro ⟨k, hk, rfl⟩
    exact List.mem_map.mpr ⟨k, List.mem_range.mpr hk, rfl⟩

theorem stepCount_mul_lt {a b s : ℤ} {k : ℕ} (hs : 0 < s) (hk : k < stepCount a b s) :
    (k : ℤ) * s < b - a := by
  have h1 : (k : ℤ) < ⌈((b - a : ℤ) : ℚ) / (s : ℚ)⌉ := by
    rw [stepCount] at hk
    exact Int.lt_toNat.mp hk
  have h2 : ((k : ℤ) : ℚ) < ((b - a : ℤ) : ℚ) / (s : ℚ) := by
    have hceil : (⌈((b - a : ℤ) : ℚ) / (s : ℚ)⌉ : ℚ) < ((b - a : ℤ) : ℚ) / (s : ℚ) + 1 :=
      Int.ceil_lt_add_one _
    have : ((k : ℤ) : ℚ) + 1 ≤ (⌈((b - a : ℤ) : ℚ) / (s : ℚ)⌉ : ℚ) := by
      exact_mod_cast Int.add_one_le_iff.mpr h1
    linarith
  have hs' : (0 : ℚ) < (s : ℚ) := by exact_mod_cast hs
  have := (lt_div_iff hs').mp h2
  exact_mod_cast this

theorem stepCount_pos_imp {a b s : ℤ} (hs : 0 < s) (h : 0 < stepCount a b s) :
    0 < b - a := by
  have := stepCount_mul_lt (a := a) (b := b) hs h
  simpa using this

theorem mem_stepRange_bounds {y a b s : ℤ} (hs : 0 < s) (hy : y ∈ stepRange a b s) :
    a ≤ y ∧ y < b := by
  obtain ⟨k, hk, rfl⟩ := mem_stepRange.mp hy
  constructor
  · have : (0 : ℤ) ≤ (k : ℤ) * s := mul_nonneg (Int.natCast_nonneg k) (le_of_lt hs)
    omega
  · have := stepCount_mul_lt hs hk
    omega

theorem mem_bandPixels {p : Pixel} {screen : ScreenInfo} {accuracy : ℤ} {iters : ℕ}
    {rpt : ℤ} {i : ℕ} :
    p ∈ bandPixels screen accuracy iters rpt i ↔
      ∃ y ∈ stepRange ((i : ℤ) * rpt) (((i : ℤ) + 1) * rpt) accuracy,
        ∃ x ∈ stepRange 0 screen.screen_width accuracy,
          p = ⟨x, y, belongs_to_set iters
            ⟨pixelToPlaneX screen (x : ℚ), pixelToPlaneY screen (y : ℚ)⟩⟩ := by
  simp only [bandPixels, List.mem_flatMap, List.mem_map]
  constructor
  · rintro ⟨y, hy, x, hx, rfl⟩; exact ⟨y, hy, x, hx, rfl⟩
  · rintro ⟨y, hy, x, hx, rfl⟩; exact ⟨y, hy, x, hx, rfl⟩

theorem mem_mandelbrodPixels {p : Pixel} {screen : ScreenInfo} {mt : ℕ} {accuracy : ℤ}
    {iters : ℕ} :
    p ∈ mandelbrodPixels screen mt accuracy iters ↔
      ∃ i : ℕ, i < mt + 1 ∧
        p ∈ bandPixels screen accuracy iters (rowsPerThread screen.screen_height mt) i := by
  simp only [mandelbrodPixels, List.mem_flatMap, List.mem_range]

theorem length_flatMap_const {α β : Type} (l : List α) (f : α → List β) (k : ℕ)
    (h : ∀ a ∈ l, (f a).length = k) : (l.flatMap f).length = l.length * k := by
  induction l with
  | nil => simp
  | cons a t ih =>
    rw [List.flatMap_cons, List.length_append, h a (List.mem_cons_self a t),
      ih (fun b hb => h b (List.mem_cons_of_mem a hb)), List.length_cons]
    ring

theorem stepCount_shift (a d s : ℤ) : stepCount a (a + d) s = stepCount 0 d s := by
  simp [stepCount]

theorem bandPixels_length (screen : ScreenInfo) (accuracy : ℤ) (iters : ℕ) (rpt : ℤ)
    (i : ℕ) :
    (bandPixels screen accuracy iters rpt i).length =
      stepCount 0 rpt accuracy * stepCount 0 screen.screen_width accuracy := by
  rw [bandPixels]
  rw [length_flatMap_const _ _ (stepCount 0 screen.screen_width accuracy)
    (fun y _ => by rw [List.length_map, stepRange_length])]
  rw [stepRange_length]
  congr 1
  rw [show ((i : ℤ) + 1) * rpt = (i : ℤ) * rpt + rpt by ring, stepCount_shift]

theorem mandelbrodPixels_length (screen : ScreenInfo) (mt : ℕ) (accuracy : ℤ)
    (iters : ℕ) :
    (mandelbrodPixels screen mt accuracy iters).length =
      (mt + 1) * (stepCount 0 (rowsPerThread screen.screen_height mt) accuracy *
        stepCount 0 screen.screen_width accuracy) := by
  rw [mandelbrodPixels]
  rw [length_flatMap_const _ _ (stepCount 0 (rowsPerThread screen.screen_height mt) accuracy *
    stepCount 0 screen.screen_width accuracy) (fun i _ => bandPixels_length _ _ _ _ _)]
  rw [List.length_range]

/-! ### Concrete evaluation of the test viewport -/

theorem rowsPerThread_testScreen : rowsPerThread testScreen.screen_height 64 = 1 := by
  rw [testScreen_height, rowsPerThread, Int.ceil_eq_iff]
  constructor <;> push_cast <;> norm_num

theorem stepCount_0_1_2 : stepCount 0 1 2 = 1 := by
  apply stepCount_eval
  rw [Int.ceil_eq_iff]
  constructor <;> push_cast <;> norm_num

theorem stepCount_0_4_2 : stepCount 0 4 2 = 2 := by
  apply stepCount_eval
  rw [Int.ceil_eq_iff]
  constructor <;> push_cast <;> norm_num

theorem stepCount_4_5_2 : stepCount 4 5 2 = 1 := by
  apply stepCount_eval
  rw [Int.ceil_eq_iff]
  constructor <;> push_cast <;> norm_num

theorem stepCount_64_65_2 : stepCount 64 65 2 = 1 := by
  apply stepCount_eval
  rw [Int.ceil_eq_iff]
  constructor <;> push_cast <;> norm_num

theorem pixelToPlaneX_testScreen (px : ℚ) : pixelToPlaneX testScreen px = 100 + px := by
  rw [pixelToPlaneX, testScreen_width,
    show testScreen.x_start = (100 : ℚ) from rfl, show testScreen.x_stop = (104 : ℚ) from rfl]
  push_cast
  ring

theorem pixelToPlaneY_testScreen (py : ℚ) : pixelToPlaneY testScreen py = 100 + py := by
  rw [pixelToPlaneY, testScreen_height,
    show testScreen.y_start = (100 : ℚ) from rfl, show testScreen.y_stop = (104 : ℚ) from rfl]
  push_cast
  ring

/-- Any point whose first iterate already exceeds the threshold escapes at
iteration 1. -/
theorem belongs_to_set_far (iters : ℕ) (hit : 1 < iters) (re im : ℚ)
    (h : 16 < im * im + re * re) : belongs_to_set iters ⟨re, im⟩ = 1 := by
  have horb1 : orbit ⟨re, im⟩ 1 = ⟨re, im⟩ := by
    rw [orbit_succ, show orbit ⟨re, im⟩ 0 = ⟨0, 0⟩ from rfl, Complex.square, Complex.add_def]
    norm_num
  have := belongs_to_set_eq_of_first_exceed iters ⟨re, im⟩ 1 hit
    (by rw [horb1, Complex.mag]; exact h)
    (fun j hj => by
      interval_cases j
      rw [show orbit ⟨re, im⟩ 0 = ⟨0, 0⟩ from rfl, Complex.mag]
      norm_num)
  simpa using this

theorem pixel_y4_mem : (⟨0, 4, 1⟩ : Pixel) ∈ mandelbrodPixels testScreen 64 2 10000 := by
  apply mem_mandelbrodPixels.mpr
  refine ⟨4, by norm_num, ?_⟩
  apply mem_bandPixels.mpr
  refine ⟨4, ?_, 0, ?_, ?_⟩
  · apply mem_stepRange.mpr
    refine ⟨0, ?_, ?_⟩
    · rw [rowsPerThread_testScreen]
      norm_num [stepCount_4_5_2]
    · rw [rowsPerThread_testScreen]
      push_cast
  · apply mem_stepRange.mpr
    refine ⟨0, ?_, ?_⟩
    · rw [testScreen_width]
      norm_num [stepCount_0_4_2]
    · norm_num
  · rw [pixelToPlaneX_testScreen, pixelToPlaneY_testScreen,
      belongs_to_set_far 10000 (by norm_num) (100 + (0 : ℤ)) (100 + (4 : ℤ)) (by push_cast; norm_num)]

theorem pixel_y64_mem : (⟨0, 64, 1⟩ : Pixel) ∈ mandelbrodPixels testScreen 64 2 10000 := by
  apply mem_mandelbrodPixels.mpr
  refine ⟨64, by norm_num, ?_⟩
  apply mem_bandPixels.mpr
  refine ⟨64, ?_, 0, ?_, ?_⟩
  · apply mem_stepRange.mpr
    refine ⟨0, ?_, ?_⟩
    · rw [rowsPerThread_testScreen]
      norm_num [stepCount_64_65_2]
    · rw [rowsPerThread_testScreen]
      push_cast
  · apply mem_stepRange.mpr
    refine ⟨0, ?_, ?_⟩
    · rw [testScreen_width]
      norm_num [stepCount_0_4_2]
    · norm_num
  · rw [pixelToPlaneX_testScreen, pixelToPlaneY_testScreen,
      belongs_to_set_far 10000 (by norm_num) (100 + (0 : ℤ)) (100 + (64 : ℤ)) (by push_cast; norm_num)]

/-! ### Pixel result bounds (claim C3) -/

theorem mem_pixel_bounds (screen : ScreenInfo) (mt : ℕ) (s : ℤ) (iters : ℕ)
    (hs : 0 < s) :
    ∀ p ∈ mandelbrodPixels screen mt s iters,
      (0 ≤ p.escapes ∧ p.escapes ≤ (iters : ℤ)) ∧
      (0 ≤ p.x ∧ p.x < screen.screen_width) ∧
      (0 ≤ p.y ∧ p.y < ((mt : ℤ) + 1) * rowsPerThread screen.screen_height mt) := by
  intro p hp
  obtain ⟨i, hi, hpb⟩ := mem_mandelbrodPixels.mp hp
  obtain ⟨y, hy, x, hx, rfl⟩ := mem_bandPixels.mp hpb
  have hxb := mem_stepRange_bounds hs hx
  have hyb := mem_stepRange_bounds hs hy
  have hrpt : 0 < rowsPerThread screen.screen_height mt := by
    obtain ⟨k, hk, _⟩ := mem_stepRange.mp hy
    have hpos : 0 < stepCount ((i : ℤ) * rowsPerThread screen.screen_height mt)
        (((i : ℤ) + 1) * rowsPerThread screen.screen_height mt) s :=
      Nat.lt_of_le_of_lt (Nat.zero_le k) hk
    have := stepCount_pos_imp hs hpos
    nlinarith
  refine ⟨belongs_to_set_bounds iters _, ⟨hxb.1, hxb.2⟩, ⟨?_, ?_⟩⟩
  · have h0 : (0 : ℤ) ≤ (i : ℤ) * rowsPerThread screen.screen_height mt :=
      mul_nonneg (Int.natCast_nonneg i) (le_of_lt hrpt)
    exact le_trans h0 hyb.1
  · apply lt_of_lt_of_le hyb.2
    apply mul_le_mul_of_nonneg_right _ (le_of_lt hrpt)
    have : (i : ℤ) ≤ (mt : ℤ) := by exact_mod_cast Nat.lt_succ_iff.mp hi
    omega

/-- C3 (amended): every returned Pixel Result satisfies
`0 ≤ escapes ≤ iteration cap` and `0 ≤ x < screen_width`, and its row obeys
`0 ≤ y < (worker_count + 1) * ceil(screen_height / worker_count)` — which
may reach or exceed `screen_height` (band overshoot), so `y` is NOT in
general below `screen_height`. -/
theorem pixel_result_bounds (screen : ScreenInfo) (mt : ℕ) (s : ℤ) (iters : ℕ)
    (hs : 0 < s) :
    ∀ p ∈ mandelbrodPixels screen mt s iters,
      (0 ≤ p.escapes ∧ p.escapes ≤ (iters : ℤ)) ∧
      (0 ≤ p.x ∧ p.x < screen.screen_width) ∧
      (0 ≤ p.y ∧ p.y < ((mt : ℤ) + 1) * rowsPerThread screen.screen_height mt) :=
  mem_pixel_bounds screen mt s iters hs

/-- C3 (counterexample): on the 4×4 test viewport the evaluator returns the
pixel `(0, 64)` whose row coordinate `64` is not below
`screen_height = 4`, refuting `(x, y) ∈ [0, width) × [0, height)`. -/
theorem pixel_out_of_frame_counterexample :
    (⟨0, 64, 1⟩ : Pixel) ∈ mandelbrod testScreen ∧
    ¬ ((64 : ℤ) < testScreen.screen_height) := by
  constructor
  · show (⟨0, 64, 1⟩ : Pixel) ∈ mandelbrodPixels testScreen 64 2 10000
    exact pixel_y64_mem
  · rw [testScreen_height]
    norm_num

/-- C3 witness (for the amended statement), at the test viewport and the
code's tunables. -/
theorem pixel_result_bounds_witness :
    (0 : ℤ) < 2 ∧ (⟨0, 4, 1⟩ : Pixel) ∈ mandelbrodPixels testScreen 64 2 10000 ∧
    ((0 ≤ (⟨0, 4, 1⟩ : Pixel).escapes ∧ (⟨0, 4, 1⟩ : Pixel).escapes ≤ ((10000 : ℕ) : ℤ)) ∧
      (0 ≤ (⟨0, 4, 1⟩ : Pixel).x ∧ (⟨0, 4, 1⟩ : Pixel).x < testScreen.screen_width) ∧
      (0 ≤ (⟨0, 4, 1⟩ : Pixel).y ∧ (⟨0, 4, 1⟩ : Pixel).y <
        (((64 : ℕ) : ℤ) + 1) * rowsPerThread testScreen.screen_height 64)) :=
  ⟨by norm_num, pixel_y4_mem,
    pixel_result_bounds testScreen 64 2 10000 (by norm_num) ⟨0, 4, 1⟩ pixel_y4_mem⟩

/-! ### Band partitioning (claim C4) -/

theorem rowsPerThread_pos {h : ℤ} {mt : ℕ} (hh : 0 < h) (hmt : 0 < mt) :
    0 < rowsPerThread h mt := by
  rw [rowsPerThread]
  apply Int.ceil_pos.mpr
  apply div_pos
  · exact_mod_cast hh
  · exact_mod_cast hmt

theorem height_le_mul_rowsPerThread (h : ℤ) (mt : ℕ) (hmt : 0 < mt) :
    h ≤ (mt : ℤ) * rowsPerThread h mt := by
  have h1 : (h : ℚ) / (mt : ℚ) ≤ ((rowsPerThread h mt : ℤ) : ℚ) := Int.le_ceil _
  have hmt' : (0 : ℚ) < (mt : ℚ) := by exact_mod_cast hmt
  rw [div_le_iff hmt'] at h1
  have h2 : (h : ℚ) ≤ ((mt : ℤ) : ℚ) * ((rowsPerThread h mt : ℤ) : ℚ) := by
    push_cast at h1 ⊢
    linarith
  exact_mod_cast h2

/-- C4 (amended): the evaluator divides the rows into `worker_count + 1`
(not `worker_count`: the Rust loop is `0..=MAX_THREADS`) contiguous bands
of `ceil(screen_height / worker_count)` rows each; every sampled row lies
below `(worker_count + 1) × ceil(screen_height / worker_count)`, and the
bands' union covers `[0, screen_height)` with no row omitted. -/
theorem band_partition_covers (screen : ScreenInfo) (mt : ℕ) (s : ℤ) (iters : ℕ)
    (hmt : 0 < mt) (hs : 0 < s) :
    (∀ p ∈ mandelbrodPixels screen mt s iters,
      0 ≤ p.y ∧ p.y < ((mt : ℤ) + 1) * rowsPerThread screen.screen_height mt) ∧
    (∀ r : ℤ, 0 ≤ r → r < screen.screen_height →
      ∃ i : ℕ, i ≤ mt ∧ (i : ℤ) * rowsPerThread screen.screen_height mt ≤ r ∧
        r < ((i : ℤ) + 1) * rowsPerThread screen.screen_height mt) := by
  constructor
  · intro p hp
    exact (mem_pixel_bounds screen mt s iters hs p hp).2.2
  · intro r hr0 hrh
    have hh : 0 < screen.screen_height := lt_of_le_of_lt hr0 hrh
    have hrpt : 0 < rowsPerThread screen.screen_height mt := rowsPerThread_pos hh hmt
    have hcap : screen.screen_height ≤ (mt : ℤ) * rowsPerThread screen.screen_height mt :=
      height_le_mul_rowsPerThread screen.screen_height mt hmt
    obtain ⟨n, rfl⟩ : ∃ n : ℕ, r = (n : ℤ) := ⟨r.toNat, (Int.toNat_of_nonneg hr0).symm⟩
    obtain ⟨d, hd_eq⟩ : ∃ d : ℕ, rowsPerThread screen.screen_height mt = (d : ℤ) :=
      ⟨(rowsPerThread screen.screen_height mt).toNat,
        (Int.toNat_of_nonneg (le_of_lt hrpt)).symm⟩
    have hd : 0 < d := by
      have hdz : (0 : ℤ) < (d : ℤ) := hd_eq ▸ hrpt
      exact_mod_cast hdz
    refine ⟨n / d, ?_, ?_, ?_⟩
    · have hlt : (n : ℤ) < (mt : ℤ) * (d : ℤ) := by rw [← hd_eq]; omega
      have hlt' : n < mt * d := by exact_mod_cast hlt
      exact le_of_lt ((Nat.div_lt_iff_lt_mul hd).mpr hlt')
    · rw [hd_eq]
      have : n / d * d ≤ n := Nat.div_mul_le_self n d
      exact_mod_cast this
    · rw [hd_eq]
      have h1 := Nat.div_add_mod n d
      have h2 := Nat.mod_lt n hd
      have : n < (n / d + 1) * d := by
        nlinarith [h1, h2]
      exact_mod_cast this

/-- C4 (counterexample): on the 4×4 test viewport (4 rows, worker count 64,
`ceil(4/64) = 1`), the sampled row `64` is returned, which is not below
`worker_count × ceil(screen_height / worker_count) = 64`: the evaluator
runs `worker_count + 1` bands, not exactly `worker_count`. -/
theorem band_row_beyond_worker_bound_counterexample :
    (⟨0, 64, 1⟩ : Pixel) ∈ mandelbrod testScreen ∧
    ¬ ((64 : ℤ) < (64 : ℤ) * rowsPerThread testScreen.screen_height 64) := by
  constructor
  · show (⟨0, 64, 1⟩ : Pixel) ∈ mandelbrodPixels testScreen 64 2 10000
    exact pixel_y64_mem
  · rw [rowsPerThread_testScreen]
    norm_num

/-- C4 witness (for the amended statement). -/
theorem band_partition_covers_witness :
    0 < 64 ∧ (0 : ℤ) < 2 ∧
    ((∀ p ∈ mandelbrodPixels testScreen 64 2 10000,
        0 ≤ p.y ∧ p.y < (((64 : ℕ) : ℤ) + 1) * rowsPerThread testScreen.screen_height 64) ∧
      (∀ r : ℤ, 0 ≤ r → r < testScreen.screen_height →
        ∃ i : ℕ, i ≤ 64 ∧ (i : ℤ) * rowsPerThread testScreen.screen_height 64 ≤ r ∧
          r < ((i : ℤ) + 1) * rowsPerThread testScreen.screen_height 64)) :=
  ⟨by norm_num, by norm_num,
    band_partition_covers testScreen 64 2 10000 (by norm_num) (by norm_num)⟩

/-! ### Stride cardinality (claim C5) -/

/-- C5 (amended): for stride `s > 1` the result's cardinality equals
`(worker_count + 1) × ceil(rows_per_band / s) × ceil(screen_width / s)`
(with `rows_per_band = ceil(screen_height / worker_count)`), not
`ceil(screen_height / s) × ceil(screen_width / s)`; each returned `(x, y)`
satisfies `x mod s = 0` and `(y − band_start) mod s = 0` relative to the
origin of the band that produced it. -/
theorem stride_cardinality_and_alignment (screen : ScreenInfo) (mt : ℕ) (s : ℤ)
    (iters : ℕ) (hs : 1 < s) :
    (mandelbrodPixels screen mt s iters).length =
      (mt + 1) * (stepCount 0 (rowsPerThread screen.screen_height mt) s *
        stepCount 0 screen.screen_width s) ∧
    ∀ p ∈ mandelbrodPixels screen mt s iters,
      p.x % s = 0 ∧ ∃ i : ℕ, i ≤ mt ∧
        (p.y - (i : ℤ) * rowsPerThread screen.screen_height mt) % s = 0 := by
  refine ⟨mandelbrodPixels_length screen mt s iters, ?_⟩
  intro p hp
  obtain ⟨i, hi, hpb⟩ := mem_mandelbrodPixels.mp hp
  obtain ⟨y, hy, x, hx, rfl⟩ := mem_bandPixels.mp hpb
  constructor
  · obtain ⟨k, _, rfl⟩ := mem_stepRange.mp hx
    rw [zero_add]
    exact Int.mul_emod_left (k : ℤ) s
  · refine ⟨i, Nat.lt_succ_iff.mp hi, ?_⟩
    obtain ⟨k, _, rfl⟩ := mem_stepRange.mp hy
    rw [show (i : ℤ) * rowsPerThread screen.screen_height mt + (k : ℤ) * s -
      (i : ℤ) * rowsPerThread screen.screen_height mt = (k : ℤ) * s by ring]
    exact Int.mul_emod_left (k : ℤ) s

/-- C5 (counterexample): on the 4×4 test viewport with stride 2 the
evaluator returns 130 pixels, while
`ceil(screen_height / s) × ceil(screen_width / s) = 2 × 2 = 4`. -/
theorem result_cardinality_counterexample :
    (mandelbrod testScreen).length = 130 ∧
    stepCount 0 testScreen.screen_height ACCURACY *
      stepCount 0 testScreen.screen_width ACCURACY = 4 ∧
    (130 : ℕ) ≠ 4 := by
  refine ⟨?_, ?_, by norm_num⟩
  · show (mandelbrodPixels testScreen 64 2 10000).length = 130
    rw [mandelbrodPixels_length, rowsPerThread_testScreen, testScreen_width,
      stepCount_0_1_2, stepCount_0_4_2]
  · rw [testScreen_height, testScreen_width]
    show stepCount 0 4 2 * stepCount 0 4 2 = 4
    rw [stepCount_0_4_2]

/-- C5 witness (for the amended statement). -/
theorem stride_cardinality_and_alignment_witness :
    (1 : ℤ) < 2 ∧
    ((mandelbrodPixels testScreen 64 2 10000).length =
        (64 + 1) * (stepCount 0 (rowsPerThread testScreen.screen_height 64) 2 *
          stepCount 0 testScreen.screen_width 2) ∧
      ∀ p ∈ mandelbrodPixels testScreen 64 2 10000,
        p.x % 2 = 0 ∧ ∃ i : ℕ, i ≤ 64 ∧
          (p.y - (i : ℤ) * rowsPerThread testScreen.screen_height 64) % 2 = 0) :=
  ⟨by norm_num, stride_cardinality_and_alignment testScreen 64 2 10000 (by norm_num)⟩

/-! ### Resolution derivation (claim C6) -/

theorem f64ToI32_eq_floor {q : ℚ} (h0 : 0 ≤ q) (h1 : q < 2 ^ 31) :
    f64ToI32 q = ⌊q⌋ := by
  rw [f64ToI32, if_neg (not_lt.mpr (by linarith))]
  by_cases hq : (2 ^ 31 : ℚ) - 1 < q
  · rw [if_pos hq]
    symm
    rw [Int.floor_eq_iff]
    constructor
    · push_cast; linarith
    · push_cast; linarith
  · rw [if_neg hq, ratTrunc, if_pos h0]

/-- C6 (amended): the derived resolution is the Rust `as i32` cast —
truncation toward zero with saturation — of `pixels_per_unit × extent`;
for a nonnegative product below `2^31` this is the floor of the product,
not its rounding to the nearest integer. -/
theorem resolution_truncates (xs xsp ys ysp ppcm : ℚ)
    (hx0 : 0 ≤ ppcm * (xsp - xs)) (hx1 : ppcm * (xsp - xs) < 2 ^ 31)
    (hy0 : 0 ≤ ppcm * (ysp - ys)) (hy1 : ppcm * (ysp - ys) < 2 ^ 31) :
    (ScreenInfo.fromTuple (xs, xsp, ys, ysp, ppcm)).screen_width = ⌊ppcm * (xsp - xs)⌋ ∧
    (ScreenInfo.fromTuple (xs, xsp, ys, ysp, ppcm)).screen_height = ⌊ppcm * (ysp - ys)⌋ :=
  ⟨f64ToI32_eq_floor hx0 hx1, f64ToI32_eq_floor hy0 hy1⟩

/-- C6 (counterexample): constructing a viewport from bounds `(0, 3/2)` at
scale 1 yields `screen_width = 1` (truncation), while rounding the product
`1 × (3/2 − 0)` gives `2`. -/
theorem resolution_not_rounded_counterexample :
    (ScreenInfo.fromTuple (0, 3 / 2, 0, 1, 1)).screen_width = 1 ∧
    round ((1 : ℚ) * (3 / 2 - 0)) = 2 ∧ (1 : ℤ) ≠ 2 := by
  refine ⟨?_, ?_, by norm_num⟩
  · show f64ToI32 ((1 : ℚ) * (3 / 2 - 0)) = 1
    rw [f64ToI32_eq_floor (by norm_num) (by norm_num), Int.floor_eq_iff]
    constructor <;> norm_num
  · rw [round_eq, show (1 : ℚ) * (3 / 2 - 0) + 1 / 2 = ((2 : ℤ) : ℚ) by norm_num,
      Int.floor_intCast]

/-- C6 witness (for the amended statement). -/
theorem resolution_truncates_witness :
    (0 : ℚ) ≤ 1 * (3 / 2 - 0) ∧ (1 : ℚ) * (3 / 2 - 0) < 2 ^ 31 ∧
    (0 : ℚ) ≤ 1 * (1 - 0) ∧ (1 : ℚ) * (1 - 0) < 2 ^ 31 ∧
    ((ScreenInfo.fromTuple (0, 3 / 2, 0, 1, 1)).screen_width = ⌊(1 : ℚ) * (3 / 2 - 0)⌋ ∧
      (ScreenInfo.fromTuple (0, 3 / 2, 0, 1, 1)).screen_height = ⌊(1 : ℚ) * (1 - 0)⌋) :=
  ⟨by norm_num, by norm_num, by norm_num, by norm_num,
    resolution_truncates 0 (3 / 2) 0 1 1 (by norm_num) (by norm_num) (by norm_num)
      (by norm_num)⟩

end Mandelbrod
